import Mathlib

/-!
# Verification of the multi-timeframe trend/pullback trading strategy

Shallow embedding of the repository's decision engine
(`src/strategy/multi_tf.py`), position-lifecycle loop
(`src/execution/executor.py`), trade journal (`src/utils/data.py`) and
order placement (`src/exchange/binance_spot.py`), with theorems settling
the specification claims.

Prices are modelled as rationals (the Python code computes with floats;
all claimed properties are exact order/equality facts that do not depend
on rounding).  Python `None` results become `Option`, raised exceptions
become `Except` or `Option` in the corner cases noted inline.
-/

namespace MultiTF

/-! ## Indicator library (`MultiTFTrendPullbackLogic.ema` / `.rsi`) -/

/-- Trailing slice `l[-n:]` of a Python list / numpy array: the last `n`
elements, except that `l[-0:]` is the whole list. -/
def takeLast (l : List ℚ) (n : Nat) : List ℚ :=
  if n = 0 then l else l.drop (l.length - n)

/-- Embedding of `MultiTFTrendPullbackLogic.ema`.  Seeded with the first element and
blended forward with `alpha = 2/(period+1)`.  Returns `none` when the
series is shorter than `period`; the empty-series/`period = 0` corner
(where Python would raise an `IndexError` on `values[0]`) is also `none`. -/
def ema (values : List ℚ) (period : Nat) : Option ℚ :=
  if values.length < period then none
  else
    match values with
    | [] => none
    | v :: vs =>
      let alpha : ℚ := 2 / ((period : ℚ) + 1)
      some (vs.foldl (fun e x => alpha * x + (1 - alpha) * e) v)

/-- Model of `np.diff`: successive differences `values[i+1] - values[i]`. -/
def npDiff (values : List ℚ) : List ℚ :=
  List.zipWith (fun b a => b - a) values.tail values

/-- Model of `np.mean` on a rational list (0 on the empty list, where numpy
yields NaN; the code below never takes the mean of an empty slice when
`period ≥ 1`). -/
def listMean (l : List ℚ) : ℚ := l.sum / (l.length : ℚ)

/-- Embedding of `MultiTFTrendPullbackLogic.rsi`. -/
def rsi (values : List ℚ) (period : Nat) : Option ℚ :=
  if values.length < period + 1 then none
  else
    let deltas := npDiff values
    let gains := deltas.map (fun d => if 0 < d then d else 0)
    let losses := deltas.map (fun d => if d < 0 then -d else 0)
    let avg_gain := listMean (takeLast gains period)
    let avg_loss := listMean (takeLast losses period)
    if avg_loss = 0 then some 100
    else some (100 - 100 / (1 + avg_gain / avg_loss))

/-! ## Decision engine state and parameters -/

/-- Constructor arguments of `MultiTFTrendPullbackLogic`. -/
structure StrategyParams where
  entry_ema : Nat
  rsi_period : Nat
  rsi_entry : ℚ
  confirm_ema_fast : Nat
  confirm_ema_slow : Nat
  exit_bars : Nat
  confirm_tf_multiple : Nat
deriving DecidableEq, Repr

/-- Mutable state of `MultiTFTrendPullbackLogic`. -/
structure LogicState where
  bar_index : Nat
  bars_in_trade : Nat
  htf_trend_bullish : Option Bool
  htf_closes : List ℚ
deriving DecidableEq, Repr

/-- State as initialised by `MultiTFTrendPullbackLogic.__init__`. -/
def initLogicState : LogicState :=
  { bar_index := 0, bars_in_trade := 0, htf_trend_bullish := none, htf_closes := [] }

/-- The engine's intent strings `"BUY"` / `"SELL"`; `None` is `Option.none`. -/
inductive Signal where
  | buy
  | sell
deriving DecidableEq, Repr

/-! ## Higher timeframe trend (`_update_confirm_trend`) -/

/-- The trend flag computed from a higher-timeframe close history: `none`
(unknown) below the slow window, otherwise `fast EMA > slow EMA`.  The
`| _, _ => none` arm covers the configuration corner
`confirm_ema_fast > len(htf_closes)` where Python would raise a
`TypeError` comparing `None` with a float; it is unreachable whenever
`confirm_ema_fast ≤ confirm_ema_slow`, which `validate_config` enforces. -/
def trendFlagOf (p : StrategyParams) (htf : List ℚ) : Option Bool :=
  if htf.length < p.confirm_ema_slow then none
  else
    match ema (takeLast htf p.confirm_ema_fast) p.confirm_ema_fast,
          ema (takeLast htf p.confirm_ema_slow) p.confirm_ema_slow with
    | some fast, some slow => some (decide (slow < fast))
    | _, _ => none

/-- Embedding of `MultiTFTrendPullbackLogic._update_confirm_trend`: append `closes[-1]`
to the higher-timeframe history and recompute the flag. -/
def updateConfirmTrend (p : StrategyParams) (s : LogicState) (closes : List ℚ) :
    LogicState :=
  let htf := s.htf_closes ++ [closes.getLastD 0]
  { s with htf_closes := htf, htf_trend_bullish := trendFlagOf p htf }

/-! ## `on_bar` -/

/-- First two steps of `on_bar`: increment `bar_index` and, every
`confirm_tf_multiple` bars, refresh the higher-timeframe trend. -/
def stepTrend (p : StrategyParams) (s : LogicState) (closes : List ℚ) : LogicState :=
  let s1 : LogicState := { s with bar_index := s.bar_index + 1 }
  if s1.bar_index % p.confirm_tf_multiple = 0 then updateConfirmTrend p s1 closes
  else s1

/-- Entry evaluation of `on_bar` after the bearish-trend guard: history
check, entry EMA pullback, RSI floor and bullish candle body. -/
def entryEval (p : StrategyParams) (opens closes : List ℚ) : Option Signal :=
  if closes.length < max p.entry_ema p.rsi_period + 1 then none
  else
    let entry_ema_val := ema (takeLast closes p.entry_ema) p.entry_ema
    let rsi_val := rsi (takeLast closes (p.rsi_period + 1)) p.rsi_period
    let pullback := closes.getLastD 0 ≤ entry_ema_val.getD 0
    let rsi_ok := p.rsi_entry ≤ rsi_val.getD 0
    let bullish_candle := opens.getLastD 0 < closes.getLastD 0
    if pullback ∧ rsi_ok ∧ bullish_candle then some Signal.buy else none

/-- Embedding of `MultiTFTrendPullbackLogic.on_bar`: process one closed candle, return
the updated engine state and the emitted intent. -/
def on_bar (p : StrategyParams) (s : LogicState) (opens closes : List ℚ)
    (in_position : Bool) : LogicState × Option Signal :=
  let s1 := stepTrend p s closes
  if in_position then
    let s2 : LogicState := { s1 with bars_in_trade := s1.bars_in_trade + 1 }
    if p.exit_bars ≤ s2.bars_in_trade then
      ({ s2 with bars_in_trade := 0 }, some Signal.sell)
    else (s2, none)
  else
    if s1.htf_trend_bullish = some false then (s1, none)
    else (s1, entryEval p opens closes)

/-! ## Iterated runs of the engine -/

/-- Run of the trend tracker alone: one `_update_confirm_trend` call per
listed latest close. -/
def htfRun (p : StrategyParams) (s : LogicState) : List ℚ → LogicState
  | [] => s
  | c :: cs => htfRun p (updateConfirmTrend p s [c]) cs

/-- Run of `on_bar` with `in_position = True` on every call; each list
element supplies that call's `opens`/`closes` arrays.  Returns the final
state and the emitted signals in order. -/
def inPosRun (p : StrategyParams) (s : LogicState) :
    List (List ℚ × List ℚ) → LogicState × List (Option Signal)
  | [] => (s, [])
  | oc :: rest =>
    let r := on_bar p s oc.1 oc.2 true
    let rec_ := inPosRun p r.1 rest
    (rec_.1, r.2 :: rec_.2)

/-! ## Candles and normalized klines (`src/utils/data.py`) -/

/-- A normalized candle as produced by `normalize_kline`; timestamps are
modelled as integers (the UTC datetimes are order-isomorphic to their
millisecond timestamps), and the `open` field is `open_` because `open`
is a Lean keyword. -/
structure Candle where
  open_time : Int
  close_time : Int
  open_ : ℚ
  high : ℚ
  low : ℚ
  close : ℚ
  volume : ℚ
deriving DecidableEq, Repr

/-! ## Order execution (`src/exchange/binance_spot.py`) -/

/-- One element of a Binance order's `fills` list. -/
structure Fill where
  price : ℚ
  qty : ℚ
deriving DecidableEq, Repr

/-- The parts of a Binance `create_order` response that
`place_market_order` reads. -/
structure OrderResponse where
  fills : List Fill
  transactTime : Option Int
deriving DecidableEq, Repr

/-- The execution dict returned by `place_market_order`. -/
structure OrderExecution where
  symbol : String
  side : String
  price : Option ℚ
  executed_qty : ℚ
  timestamp : Option Int
deriving DecidableEq, Repr

/-- Embedding of `BinanceSpotExchange.place_market_order`.  `liveResponse` abstracts
the network call `client.create_order` (its result, or the
`BinanceAPIException` it raised); in DRY_RUN mode it is never consulted.
The returned `Bool` records whether an exchange order call was made.
`Except.error` models the raised exceptions. -/
def place_market_order (dry_run : Bool) (symbol side : String) (quantity : ℚ)
    (liveResponse : Except String OrderResponse) :
    Except String (OrderExecution × Bool) :=
  if side ≠ "BUY" ∧ side ≠ "SELL" then .error "Invalid order side"
  else if dry_run then
    .ok ({ symbol := symbol, side := side, price := none,
           executed_qty := quantity, timestamp := none }, false)
  else
    match liveResponse with
    | .error _ => .error "Market order failed"
    | .ok order =>
      if order.fills = [] then .error "Order executed but no fills returned"
      else
        let executed_qty := (order.fills.map (fun f => f.qty)).sum
        let avg_price := (order.fills.map (fun f => f.price * f.qty)).sum / executed_qty
        .ok ({ symbol := symbol, side := side, price := some avg_price,
               executed_qty := executed_qty,
               timestamp := order.transactTime }, true)

/-- The simulated fill that DRY_RUN mode produces for each side. -/
def dryFill (symbol : String) (quantity : ℚ) (side : String) : OrderExecution :=
  { symbol := symbol, side := side, price := none,
    executed_qty := quantity, timestamp := none }

/-! ## Trade records and the CSV journal (`src/utils/data.py`) -/

/-- The entry-time keys of `self.current_trade` as built in the executor's
BUY branch. -/
structure EntryTrade where
  trade_id : String
  symbol : String
  direction : String
  entry_time : Int
  entry_price : Option ℚ
  quantity : ℚ
deriving DecidableEq, Repr

/-- A completed trade: the entry keys plus the exit keys added by
`current_trade.update` in the SELL branch. -/
structure Trade where
  trade_id : String
  symbol : String
  direction : String
  entry_time : Int
  entry_price : Option ℚ
  quantity : ℚ
  exit_time : Int
  exit_price : Option ℚ
  bars_held : Nat
  environment : String
deriving DecidableEq, Repr

/-- The field list `CSV_FIELDS` from `src/utils/data.py`. -/
def CSV_FIELDS : List String :=
  ["trade_id", "symbol", "direction", "entry_time", "entry_price",
   "exit_time", "exit_price", "bars_held", "environment"]

/-- The row `writer.writerow({...})` emits for one trade, as an ordered
key/value list; `none` values stand for CSV blanks, timestamps are
rendered by `toString` in place of `datetime.isoformat`. -/
def csvRow (t : Trade) : List (String × Option String) :=
  [("trade_id", some t.trade_id),
   ("symbol", some t.symbol),
   ("direction", some t.direction),
   ("entry_time", some (toString t.entry_time)),
   ("entry_price", t.entry_price.map toString),
   ("exit_time", some (toString t.exit_time)),
   ("exit_price", t.exit_price.map toString),
   ("bars_held", some (toString t.bars_held)),
   ("environment", some t.environment)]

/-- Embedding of `write_trades_to_csv`.  `storage` abstracts the file open/write
(success, or the exception it raised).  The result is `Except.ok` of the
row written (`none` when nothing was written: empty trade list, or a
storage failure that was swallowed); `Except.error` would model an
exception escaping the function — the theorems show it never occurs. -/
def write_trades_to_csv (trades : List Trade)
    (storage : Except String Unit) :
    Except String (Option (List (String × Option String))) :=
  match trades.getLast? with
  | none => .ok none
  | some trade =>
    match storage with
    | .error _ => .ok none
    | .ok _ => .ok (some (csvRow trade))

/-! ## Position lifecycle loop (`src/execution/executor.py`) -/

/-- Mutable state of `LiveTradingExecutor` (candle state, position and
trade tracking).  `entry_bar_index` is specification-only instrumentation
absent from the source: it records `logic.bar_index` at the accepted bar
of the current trade's entry and is never read by the step function; it
lets the theorems speak about the number of bars between entry and exit. -/
structure ExecState where
  logic : LogicState
  entry_tf_candles : List Candle
  last_close_time : Option Int
  in_position : Bool
  bars_in_trade : Nat
  trades : List Trade
  trade_counter : Nat
  current_trade : Option EntryTrade
  entry_bar_index : Nat
deriving DecidableEq, Repr

/-- The `LiveTradingExecutor.__init__` runtime state. -/
def initExecState : ExecState :=
  { logic := initLogicState, entry_tf_candles := [], last_close_time := none,
    in_position := false, bars_in_trade := 0, trades := [], trade_counter := 0,
    current_trade := none, entry_bar_index := 0 }

/-- The trade id format: letter T, then the counter zero-padded to width 3. -/
def formatTradeId (n : Nat) : String :=
  let s := toString n
  "T" ++ String.mk (List.replicate (3 - s.length) '0') ++ s

/-- Fallback used to keep the exit branch total when `current_trade` is
empty (`{}` in Python); the reachability invariant shows a position is
never open without a populated `current_trade`, so it is never consulted
on reachable states. -/
def defaultEntryTrade : EntryTrade :=
  { trade_id := "", symbol := "", direction := "", entry_time := 0,
    entry_price := none, quantity := 0 }

/-- Embedding of `LiveTradingExecutor._fetch_new_closed_candle`: accept the fetched
batch only when its latest candle's close_time differs from the
watermark; on acceptance advance the watermark and replace
`entry_tf_candles`. -/
def fetchNewClosedCandle (s : ExecState) (batch : List Candle) :
    ExecState × Option Candle :=
  match batch.getLast? with
  | none => (s, none)
  | some latest =>
    if s.last_close_time = some latest.close_time then (s, none)
    else
      ({ s with last_close_time := some latest.close_time,
                entry_tf_candles := batch }, some latest)

/-- Observable events of one iteration of the polling loop. -/
structure StepLog where
  engineCalled : Bool
  decision : Option Signal
  appended : Option Trade
deriving DecidableEq, Repr

/-- Body of `LiveTradingExecutor.run`'s `while` loop after a new closed
candle has been accepted: invoke the strategy, execute the intent, track
the position.  `fill` abstracts `exchange.place_market_order` (the
execution dict returned per side), `envLabel` is `"DRY_RUN"` or
`BINANCE["ENV"]`. -/
def execTick (p : StrategyParams) (fill : String → OrderExecution)
    (symbol envLabel : String) (s1 : ExecState) (candle : Candle) :
    ExecState × StepLog :=
  let opens := s1.entry_tf_candles.map (fun c => c.open_)
  let closes := s1.entry_tf_candles.map (fun c => c.close)
  let r := on_bar p s1.logic opens closes s1.in_position
  let decision := r.2
  let s2 : ExecState := { s1 with logic := r.1 }
  let s3a : ExecState × Option Trade :=
    if decision = some Signal.buy ∧ s2.in_position = false then
      let execution := fill "BUY"
      ({ s2 with
          in_position := true
          bars_in_trade := 0
          trade_counter := s2.trade_counter + 1
          current_trade := some
            { trade_id := formatTradeId (s2.trade_counter + 1)
              symbol := symbol
              direction := "LONG"
              entry_time := candle.close_time
              entry_price := execution.price
              quantity := execution.executed_qty }
          entry_bar_index := r.1.bar_index }, none)
    else if decision = some Signal.sell ∧ s2.in_position = true then
      let execution := fill "SELL"
      let et := s2.current_trade.getD defaultEntryTrade
      let t : Trade :=
        { trade_id := et.trade_id, symbol := et.symbol,
          direction := et.direction, entry_time := et.entry_time,
          entry_price := et.entry_price, quantity := et.quantity,
          exit_time := candle.close_time, exit_price := execution.price,
          bars_held := s2.bars_in_trade, environment := envLabel }
      ({ s2 with
          in_position := false
          trades := s2.trades ++ [t]
          current_trade := none
          bars_in_trade := 0 }, some t)
    else (s2, none)
  let s4 : ExecState :=
    if s3a.1.in_position then { s3a.1 with bars_in_trade := s3a.1.bars_in_trade + 1 }
    else s3a.1
  (s4, { engineCalled := true, decision := decision, appended := s3a.2 })

/-- One iteration of `LiveTradingExecutor.run`'s `while` body for a
fetched `batch`: candle deduplication, then — only on a genuinely new
closed candle — the decision/execution tick. -/
def execStep (p : StrategyParams) (fill : String → OrderExecution)
    (symbol envLabel : String) (s : ExecState) (batch : List Candle) :
    ExecState × StepLog :=
  match fetchNewClosedCandle s batch with
  | (s1, none) => (s1, { engineCalled := false, decision := none, appended := none })
  | (s1, some candle) => execTick p fill symbol envLabel s1 candle

/-- Iterated loop: one `execStep` per fetched batch, collecting the final
state and the per-tick logs. -/
def execRun (p : StrategyParams) (fill : String → OrderExecution)
    (symbol envLabel : String) (s : ExecState) :
    List (List Candle) → ExecState × List StepLog
  | [] => (s, [])
  | b :: bs =>
    let r := execStep p fill symbol envLabel s b
    let rest := execRun p fill symbol envLabel r.1 bs
    (rest.1, r.2 :: rest.2)

/-- The sequence of Decision Engine outputs over a run: one entry per
tick on which the engine was invoked. -/
def decisionTrace (p : StrategyParams) (fill : String → OrderExecution)
    (symbol envLabel : String) (s : ExecState) :
    List (List Candle) → List (Option Signal)
  | [] => []
  | b :: bs =>
    let r := execStep p fill symbol envLabel s b
    if r.2.engineCalled then r.2.decision :: decisionTrace p fill symbol envLabel r.1 bs
    else decisionTrace p fill symbol envLabel r.1 bs

/-- Executor states reachable from startup by some sequence of fetched
batches. -/
inductive Reachable (p : StrategyParams) (fill : String → OrderExecution)
    (symbol envLabel : String) : ExecState → Prop where
  | init : Reachable p fill symbol envLabel initExecState
  | step {s : ExecState} (batch : List Candle) :
      Reachable p fill symbol envLabel s →
      Reachable p fill symbol envLabel (execStep p fill symbol envLabel s batch).1

/-- Inductive invariant of the lifecycle loop, relating position state,
the pending trade record, the trade journal and the bar counters. -/
def ExecInv (fill : String → OrderExecution) (s : ExecState) : Prop :=
  (s.in_position = false →
     s.logic.bars_in_trade = 0 ∧ s.current_trade = none ∧
     s.trades.map (fun t => t.trade_id) =
       (List.range s.trade_counter).map (fun i => formatTradeId (i + 1))) ∧
  (s.in_position = true → ∃ et, s.current_trade = some et ∧
     et.trade_id = formatTradeId s.trade_counter ∧
     et.entry_price = (fill "BUY").price ∧
     1 ≤ s.trade_counter ∧
     s.trades.map (fun t => t.trade_id) =
       (List.range (s.trade_counter - 1)).map (fun i => formatTradeId (i + 1)) ∧
     s.bars_in_trade = s.logic.bar_index + 1 - s.entry_bar_index ∧
     s.entry_bar_index ≤ s.logic.bar_index) ∧
  (∀ t ∈ s.trades,
     t.entry_price = (fill "BUY").price ∧ t.exit_price = (fill "SELL").price)

/-! ## Concrete example data (used to exercise the theorems) -/

/-- Small strategy parameters: 1-bar windows, RSI threshold 0, exit after
1 bar, trend refresh only every 100 bars. -/
def exParams : StrategyParams := ⟨1, 1, 0, 1, 1, 1, 100⟩

/-- A candle with the given close time, open and close (other fields
inessential). -/
def exCandle (ct : Int) (o c : ℚ) : Candle := ⟨0, ct, o, c, c, c, 0⟩

def exBatch1 : List Candle := [exCandle 1 1 1, exCandle 2 1 2]

def exBatch2 : List Candle := [exCandle 1 1 1, exCandle 2 1 2, exCandle 3 1 2]

def exBatch3 : List Candle :=
  [exCandle 1 1 1, exCandle 2 1 2, exCandle 3 1 2, exCandle 4 1 3]

/-- State `initExecState` right after accepting the latest candle of `exBatch1`
(watermark advanced, candle context replaced). -/
def exPre1 : ExecState :=
  { initExecState with last_close_time := some 2, entry_tf_candles := exBatch1 }

/-- Executor state after the accepted entry bar of `exBatch1`. -/
def exState1 : ExecState :=
  { logic := { bar_index := 1, bars_in_trade := 0, htf_trend_bullish := none,
               htf_closes := [] },
    entry_tf_candles := exBatch1, last_close_time := some 2, in_position := true,
    bars_in_trade := 1, trades := [],
    trade_counter := 1,
    current_trade := some
      { trade_id := formatTradeId 1, symbol := "BTCUSDT", direction := "LONG",
        entry_time := 2, entry_price := none, quantity := 2 / 100 },
    entry_bar_index := 1 }

/-- State `exState1` right after accepting the latest candle of `exBatch2`. -/
def exPre2 : ExecState :=
  { exState1 with last_close_time := some 3, entry_tf_candles := exBatch2 }

/-- The trade completed on the exit bar of `exBatch2`. -/
def exTrade : Trade :=
  { trade_id := formatTradeId 1, symbol := "BTCUSDT", direction := "LONG",
    entry_time := 2, entry_price := none, quantity := 2 / 100, exit_time := 3,
    exit_price := none, bars_held := 1, environment := "DRY_RUN" }

/-- Executor state after the accepted exit bar of `exBatch2`. -/
def exState2 : ExecState :=
  { logic := { bar_index := 2, bars_in_trade := 0, htf_trend_bullish := none,
               htf_closes := [] },
    entry_tf_candles := exBatch2, last_close_time := some 3, in_position := false,
    bars_in_trade := 0, trades := [exTrade], trade_counter := 1,
    current_trade := none, entry_bar_index := 1 }

/-- State `exState2` right after accepting the latest candle of `exBatch3`. -/
def exPre3 : ExecState :=
  { exState2 with last_close_time := some 4, entry_tf_candles := exBatch3 }

/-- Executor state after the accepted re-entry bar of `exBatch3`. -/
def exState3 : ExecState :=
  { logic := { bar_index := 3, bars_in_trade := 0, htf_trend_bullish := none,
               htf_closes := [] },
    entry_tf_candles := exBatch3, last_close_time := some 4, in_position := true,
    bars_in_trade := 1, trades := [exTrade], trade_counter := 2,
    current_trade := some
      { trade_id := formatTradeId 2, symbol := "BTCUSDT", direction := "LONG",
        entry_time := 4, entry_price := none, quantity := 2 / 100 },
    entry_bar_index := 3 }

end MultiTF

namespace MultiTF

/-! ## Unfolding lemmas (zeta-reduced definition bodies) -/

theorem stepTrend_def (p : StrategyParams) (s : LogicState) (closes : List ℚ) :
    stepTrend p s closes =
      if (s.bar_index + 1) % p.confirm_tf_multiple = 0 then
        updateConfirmTrend p { s with bar_index := s.bar_index + 1 } closes
      else { s with bar_index := s.bar_index + 1 } := rfl

theorem on_bar_false_def (p : StrategyParams) (s : LogicState) (opens closes : List ℚ) :
    on_bar p s opens closes false =
      if (stepTrend p s closes).htf_trend_bullish = some false then
        (stepTrend p s closes, none)
      else (stepTrend p s closes, entryEval p opens closes) := rfl

theorem on_bar_true_def (p : StrategyParams) (s : LogicState) (opens closes : List ℚ) :
    on_bar p s opens closes true =
      if p.exit_bars ≤ (stepTrend p s closes).bars_in_trade + 1 then
        ({ stepTrend p s closes with bars_in_trade := 0 }, some Signal.sell)
      else ({ stepTrend p s closes with
                bars_in_trade := (stepTrend p s closes).bars_in_trade + 1 }, none) := rfl

theorem rsi_def (values : List ℚ) (period : Nat) :
    rsi values period =
      if values.length < period + 1 then none
      else if listMean (takeLast ((npDiff values).map
          (fun d => if d < 0 then -d else 0)) period) = 0 then some 100
      else some (100 - 100 / (1 +
        listMean (takeLast ((npDiff values).map
          (fun d => if 0 < d then d else 0)) period) /
        listMean (takeLast ((npDiff values).map
          (fun d => if d < 0 then -d else 0)) period))) := rfl

theorem entryEval_def (p : StrategyParams) (opens closes : List ℚ) :
    entryEval p opens closes =
      if closes.length < max p.entry_ema p.rsi_period + 1 then none
      else if closes.getLastD 0 ≤ (ema (takeLast closes p.entry_ema) p.entry_ema).getD 0 ∧
              p.rsi_entry ≤ (rsi (takeLast closes (p.rsi_period + 1)) p.rsi_period).getD 0 ∧
              opens.getLastD 0 < closes.getLastD 0 then some Signal.buy
      else none := rfl

/-! ## Basic lemmas about the indicator library -/

theorem takeLast_length_ge {l : List ℚ} {n : Nat} (h : n ≤ l.length) :
    n ≤ (takeLast l n).length := by
  unfold takeLast
  split
  · omega
  · simp only [List.length_drop]
    omega

theorem takeLast_ne_nil {l : List ℚ} {n : Nat} (hl : l ≠ []) (h : n ≤ l.length) :
    takeLast l n ≠ [] := by
  unfold takeLast
  split
  · exact hl
  · have hlen : 0 < l.length := List.length_pos.mpr hl
    intro hc
    have := congrArg List.length hc
    simp only [List.length_drop, List.length_nil] at this
    omega

theorem takeLast_map (f : ℚ → ℚ) (l : List ℚ) (n : Nat) :
    takeLast (l.map f) n = (takeLast l n).map f := by
  unfold takeLast
  simp only [List.length_map]
  split
  · rfl
  · exact (List.map_drop f l (l.length - n)).symm

theorem ema_isSome {values : List ℚ} {period : Nat}
    (hne : values ≠ []) (h : period ≤ values.length) :
    ∃ x, ema values period = some x := by
  unfold ema
  rw [if_neg (by omega)]
  match values, hne with
  | v :: vs, _ => exact ⟨_, rfl⟩

theorem rsi_eq_none_iff {values : List ℚ} {period : Nat} :
    rsi values period = none ↔ values.length < period + 1 := by
  rw [rsi_def]
  split
  · simp [*]
  · constructor
    · intro h
      split at h <;> simp at h
    · intro h
      omega

theorem rsi_isSome {values : List ℚ} {period : Nat}
    (h : period + 1 ≤ values.length) :
    ∃ x, rsi values period = some x := by
  cases hx : rsi values period with
  | some x => exact ⟨x, rfl⟩
  | none => exact absurd (rsi_eq_none_iff.mp hx) (by omega)

/-! ## Basic lemmas about the decision engine -/

theorem updateConfirmTrend_bar_index (p : StrategyParams) (s : LogicState)
    (closes : List ℚ) : (updateConfirmTrend p s closes).bar_index = s.bar_index := rfl

theorem updateConfirmTrend_bars_in_trade (p : StrategyParams) (s : LogicState)
    (closes : List ℚ) :
    (updateConfirmTrend p s closes).bars_in_trade = s.bars_in_trade := rfl

theorem stepTrend_bar_index (p : StrategyParams) (s : LogicState) (closes : List ℚ) :
    (stepTrend p s closes).bar_index = s.bar_index + 1 := by
  rw [stepTrend_def]
  split <;> rfl

theorem stepTrend_bars_in_trade (p : StrategyParams) (s : LogicState)
    (closes : List ℚ) :
    (stepTrend p s closes).bars_in_trade = s.bars_in_trade := by
  rw [stepTrend_def]
  split <;> rfl

theorem on_bar_fst_flat (p : StrategyParams) (s : LogicState) (opens closes : List ℚ) :
    (on_bar p s opens closes false).1 = stepTrend p s closes := by
  rw [on_bar_false_def]
  split <;> rfl

theorem on_bar_snd_flat (p : StrategyParams) (s : LogicState) (opens closes : List ℚ) :
    (on_bar p s opens closes false).2 =
      if (stepTrend p s closes).htf_trend_bullish = some false then none
      else entryEval p opens closes := by
  rw [on_bar_false_def]
  split <;> rfl

theorem on_bar_snd_inpos (p : StrategyParams) (s : LogicState) (opens closes : List ℚ) :
    (on_bar p s opens closes true).2 =
      if p.exit_bars ≤ s.bars_in_trade + 1 then some Signal.sell else none := by
  rw [on_bar_true_def, stepTrend_bars_in_trade]
  split <;> rfl

theorem on_bar_bars_inpos (p : StrategyParams) (s : LogicState) (opens closes : List ℚ) :
    ((on_bar p s opens closes true).1).bars_in_trade =
      if p.exit_bars ≤ s.bars_in_trade + 1 then 0 else s.bars_in_trade + 1 := by
  rw [on_bar_true_def, stepTrend_bars_in_trade]
  split
  · rfl
  · simp [stepTrend_bars_in_trade]

theorem on_bar_bar_index (p : StrategyParams) (s : LogicState) (opens closes : List ℚ)
    (b : Bool) : ((on_bar p s opens closes b).1).bar_index = s.bar_index + 1 := by
  cases b
  · rw [on_bar_fst_flat, stepTrend_bar_index]
  · rw [on_bar_true_def]
    split
    · simp [stepTrend_bar_index]
    · simp [stepTrend_bar_index]

theorem on_bar_bars_flat (p : StrategyParams) (s : LogicState) (opens closes : List ℚ) :
    ((on_bar p s opens closes false).1).bars_in_trade = s.bars_in_trade := by
  rw [on_bar_fst_flat, stepTrend_bars_in_trade]

theorem entryEval_ne_sell (p : StrategyParams) (opens closes : List ℚ) :
    entryEval p opens closes ≠ some Signal.sell := by
  rw [entryEval_def]
  split
  · simp
  · split <;> simp

theorem on_bar_flat_ne_sell (p : StrategyParams) (s : LogicState)
    (opens closes : List ℚ) :
    (on_bar p s opens closes false).2 ≠ some Signal.sell := by
  rw [on_bar_snd_flat]
  split
  · simp
  · exact entryEval_ne_sell p opens closes

theorem on_bar_inpos_ne_buy (p : StrategyParams) (s : LogicState)
    (opens closes : List ℚ) :
    (on_bar p s opens closes true).2 ≠ some Signal.buy := by
  rw [on_bar_snd_inpos]
  split <;> simp

theorem on_bar_sell_bars (p : StrategyParams) (s : LogicState) (opens closes : List ℚ)
    (b : Bool) (h : (on_bar p s opens closes b).2 = some Signal.sell) :
    ((on_bar p s opens closes b).1).bars_in_trade = 0 := by
  cases b
  · exact absurd h (on_bar_flat_ne_sell p s opens closes)
  · rw [on_bar_snd_inpos] at h
    rw [on_bar_bars_inpos]
    split at h
    · rw [if_pos ‹_›]
    · simp at h

/-! ## Claim C6: oscillator window and saturation at 100 -/

/-- C6. The oscillator returns `none` (unavailable) on fewer than
`period+1` values; with enough values and `period ≥ 1`, when every delta
in the trailing window is non-negative (average loss exactly zero) it
returns exactly 100, so the `100 - 100/(1 + avgGain/avgLoss)` branch with
its division by the average loss is never evaluated in that case. -/
theorem claimC6_rsi_window_and_saturation (values : List ℚ) (period : Nat) :
    (values.length < period + 1 → rsi values period = none) ∧
    (1 ≤ period → period + 1 ≤ values.length →
      (∀ d ∈ takeLast (npDiff values) period, 0 ≤ d) →
      rsi values period = some 100) := by
  constructor
  · intro h
    rw [rsi_def, if_pos h]
  · intro hp hlen hpos
    have hzero : listMean (takeLast ((npDiff values).map
        (fun d => if d < 0 then -d else 0)) period) = 0 := by
      rw [takeLast_map]
      unfold listMean
      rw [List.sum_eq_zero, zero_div]
      intro x hx
      rw [List.mem_map] at hx
      obtain ⟨d, hd, rfl⟩ := hx
      rw [if_neg (not_lt.mpr (hpos d hd))]
    rw [rsi_def, if_neg (by omega), if_pos hzero]

/-- C6 witness. `rsi [1,2,3] 2 = 100`: three values, both deltas
non-negative. -/
theorem claimC6_witness : rsi [1, 2, 3] 2 = some 100 :=
  (claimC6_rsi_window_and_saturation [1, 2, 3] 2).2 (by norm_num) (by norm_num)
    (by norm_num [takeLast, npDiff])

/-! ## Claim C1: flat-position entry rule -/

/-- C1. With `positionOpen = false`, `on_bar` returns enter-long
exactly when, after this bar's periodic trend refresh, the trend flag is
not bearish, the history suffices for both indicator windows, and the
three entry conditions hold on the latest bar (pullback to the entry EMA,
oscillator at or above the threshold, bullish candle body); in every
other flat-position case it returns no-action (never exit-long). -/
theorem claimC1_flat_entry_iff (p : StrategyParams) (s : LogicState)
    (opens closes : List ℚ) :
    ((on_bar p s opens closes false).2 = some Signal.buy ↔
      ((stepTrend p s closes).htf_trend_bullish ≠ some false ∧
       max p.entry_ema p.rsi_period + 1 ≤ closes.length ∧
       ∃ e r, ema (takeLast closes p.entry_ema) p.entry_ema = some e ∧
         rsi (takeLast closes (p.rsi_period + 1)) p.rsi_period = some r ∧
         closes.getLastD 0 ≤ e ∧ p.rsi_entry ≤ r ∧
         opens.getLastD 0 < closes.getLastD 0)) ∧
    ((on_bar p s opens closes false).2 = some Signal.buy ∨
     (on_bar p s opens closes false).2 = none) := by
  have hside : (on_bar p s opens closes false).2 = some Signal.buy ∨
      (on_bar p s opens closes false).2 = none := by
    rw [on_bar_snd_flat]
    split
    · exact Or.inr rfl
    · rw [entryEval_def]
      split
      · exact Or.inr rfl
      · split
        · exact Or.inl rfl
        · exact Or.inr rfl
  refine ⟨?_, hside⟩
  rw [on_bar_snd_flat]
  by_cases hf : (stepTrend p s closes).htf_trend_bullish = some false
  · rw [if_pos hf]
    simp [hf]
  · rw [if_neg hf, entryEval_def]
    by_cases hl : closes.length < max p.entry_ema p.rsi_period + 1
    · rw [if_pos hl]
      constructor
      · intro h
        simp at h
      · rintro ⟨-, hle, -⟩
        omega
    · rw [if_neg hl]
      push_neg at hl
      have hcne : closes ≠ [] := List.length_pos.mp (by omega)
      have hee : p.entry_ema ≤ closes.length := by
        have := le_max_left p.entry_ema p.rsi_period
        omega
      obtain ⟨e, he⟩ := ema_isSome (takeLast_ne_nil hcne hee) (takeLast_length_ge hee)
      have hrr : p.rsi_period + 1 ≤ closes.length := by
        have := le_max_right p.entry_ema p.rsi_period
        omega
      obtain ⟨r, hr⟩ := rsi_isSome (takeLast_length_ge hrr)
      rw [he, hr]
      simp only [Option.getD_some]
      constructor
      · intro h
        split at h
        · rename_i hcond
          exact ⟨hf, hl, e, r, rfl, rfl, hcond.1, hcond.2.1, hcond.2.2⟩
        · simp at h
      · rintro ⟨-, -, e2, r2, he2, hr2, hc1, hc2, hc3⟩
        obtain rfl : e = e2 := Option.some.inj he2
        obtain rfl : r = r2 := Option.some.inj hr2
        rw [if_pos ⟨hc1, hc2, hc3⟩]


/-! ## Trend tracker run lemmas -/

theorem updateConfirmTrend_htf_closes (p : StrategyParams) (s : LogicState)
    (closes : List ℚ) :
    (updateConfirmTrend p s closes).htf_closes =
      s.htf_closes ++ [closes.getLastD 0] := rfl

theorem updateConfirmTrend_flag (p : StrategyParams) (s : LogicState)
    (closes : List ℚ) :
    (updateConfirmTrend p s closes).htf_trend_bullish =
      trendFlagOf p (s.htf_closes ++ [closes.getLastD 0]) := rfl

theorem htfRun_htf_closes (p : StrategyParams) (cs : List ℚ) :
    ∀ s : LogicState, (htfRun p s cs).htf_closes = s.htf_closes ++ cs := by
  induction cs with
  | nil => intro s; simp [htfRun]
  | cons c cs ih =>
    intro s
    rw [htfRun, ih, updateConfirmTrend_htf_closes]
    simp

theorem htfRun_flag (p : StrategyParams) :
    ∀ cs : List ℚ, cs ≠ [] → ∀ s : LogicState,
      (htfRun p s cs).htf_trend_bullish = trendFlagOf p (s.htf_closes ++ cs) := by
  intro cs
  induction cs with
  | nil => exact fun h => absurd rfl h
  | cons c cs ih =>
    intro _ s
    rw [htfRun]
    by_cases h : cs = []
    · subst h
      rw [htfRun, updateConfirmTrend_flag]
      rfl
    · rw [ih h (updateConfirmTrend p s [c]), updateConfirmTrend_htf_closes]
      simp [List.getLastD]

theorem trendFlagOf_det (p : StrategyParams)
    (hfs : p.confirm_ema_fast ≤ p.confirm_ema_slow) (h : List ℚ)
    (hlen : p.confirm_ema_slow ≤ h.length) (hne : h ≠ []) :
    ∃ f sl, ema (takeLast h p.confirm_ema_fast) p.confirm_ema_fast = some f ∧
      ema (takeLast h p.confirm_ema_slow) p.confirm_ema_slow = some sl ∧
      trendFlagOf p h = some (decide (sl < f)) := by
  have hfl : p.confirm_ema_fast ≤ h.length := le_trans hfs hlen
  obtain ⟨f, hfv⟩ := ema_isSome (takeLast_ne_nil hne hfl) (takeLast_length_ge hfl)
  obtain ⟨sl, hsv⟩ := ema_isSome (takeLast_ne_nil hne hlen) (takeLast_length_ge hlen)
  refine ⟨f, sl, hfv, hsv, ?_⟩
  unfold trendFlagOf
  rw [if_neg (by omega), hfv, hsv]

/-! ## Claim C5: trend flag unknown, then deterministic; unknown never blocks -/

/-- C5. Starting from the initial tracker state, the trend flag is
unknown (`none`) while the higher-timeframe close history is shorter than
`confirm_ema_slow`; once the history reaches that length the flag is the
deterministic comparison `fast EMA > slow EMA` of the trailing windows;
and whenever the flag after the per-bar refresh is unknown, a
flat-position `on_bar` call returns exactly the entry evaluation — the
trend guard never suppresses it (only an explicit bearish flag does). -/
theorem claimC5_trend_flag (p : StrategyParams)
    (hfs : p.confirm_ema_fast ≤ p.confirm_ema_slow)
    (hs1 : 1 ≤ p.confirm_ema_slow) (updates : List ℚ) :
    ((updates.length < p.confirm_ema_slow →
        (htfRun p initLogicState updates).htf_trend_bullish = none) ∧
     (p.confirm_ema_slow ≤ updates.length →
        ∃ f sl, ema (takeLast updates p.confirm_ema_fast) p.confirm_ema_fast = some f ∧
          ema (takeLast updates p.confirm_ema_slow) p.confirm_ema_slow = some sl ∧
          (htfRun p initLogicState updates).htf_trend_bullish =
            some (decide (sl < f)))) ∧
    (∀ (s : LogicState) (opens closes : List ℚ),
        (stepTrend p s closes).htf_trend_bullish = none →
        (on_bar p s opens closes false).2 = entryEval p opens closes) := by
  refine ⟨⟨?_, ?_⟩, ?_⟩
  · intro hlt
    by_cases hu : updates = []
    · subst hu
      rfl
    · rw [htfRun_flag p updates hu initLogicState]
      unfold trendFlagOf
      rw [if_pos]
      simpa [initLogicState] using hlt
  · intro hge
    have hne : updates ≠ [] := by
      intro hc
      rw [hc] at hge
      simp at hge
      omega
    obtain ⟨f, sl, hfv, hsv, hflag⟩ := trendFlagOf_det p hfs updates hge hne
    refine ⟨f, sl, hfv, hsv, ?_⟩
    rw [htfRun_flag p updates hne initLogicState]
    simpa [initLogicState] using hflag
  · intro s opens closes hnone
    rw [on_bar_snd_flat, if_neg]
    rw [hnone]
    simp

/-- C5 witness. With fast window 1 and slow window 2: after one update
the flag is still unknown; after two it equals the fast/slow EMA
comparison (here bearish, since the series falls); and an unknown flag
leaves the flat decision equal to the raw entry evaluation. -/
theorem claimC5_witness :
    (htfRun ⟨1, 1, 0, 1, 2, 1, 100⟩ initLogicState [4]).htf_trend_bullish = none ∧
    (∃ f sl,
      ema (takeLast [4, 2] 1) 1 = some f ∧
      ema (takeLast [4, 2] 2) 2 = some sl ∧
      (htfRun ⟨1, 1, 0, 1, 2, 1, 100⟩ initLogicState [4, 2]).htf_trend_bullish =
        some (decide (sl < f))) ∧
    (on_bar ⟨1, 1, 0, 1, 2, 1, 100⟩ initLogicState [1] [1] false).2 =
      entryEval ⟨1, 1, 0, 1, 2, 1, 100⟩ [1] [1] := by
  refine ⟨?_, ?_, ?_⟩
  · exact ((claimC5_trend_flag ⟨1, 1, 0, 1, 2, 1, 100⟩ (by norm_num) (by norm_num)
      [4]).1).1 (by norm_num)
  · exact ((claimC5_trend_flag ⟨1, 1, 0, 1, 2, 1, 100⟩ (by norm_num) (by norm_num)
      [4, 2]).1).2 (by norm_num)
  · exact (claimC5_trend_flag ⟨1, 1, 0, 1, 2, 1, 100⟩ (by norm_num) (by norm_num)
      []).2 initLogicState [1] [1] (by norm_num [stepTrend, initLogicState])


/-! ## In-position run lemmas -/

theorem inPosRun_no_fire (p : StrategyParams) :
    ∀ (l : List (List ℚ × List ℚ)) (s : LogicState),
      s.bars_in_trade + l.length < p.exit_bars →
      (inPosRun p s l).2 = List.replicate l.length none ∧
      ((inPosRun p s l).1).bars_in_trade = s.bars_in_trade + l.length := by
  intro l
  induction l with
  | nil => intro s _; exact ⟨rfl, rfl⟩
  | cons oc l ih =>
    intro s hlt
    have hnof : ¬ p.exit_bars ≤ s.bars_in_trade + 1 := by
      simp only [List.length_cons] at hlt
      omega
    have hsig : (on_bar p s oc.1 oc.2 true).2 = none := by
      rw [on_bar_snd_inpos, if_neg hnof]
    have hbars : ((on_bar p s oc.1 oc.2 true).1).bars_in_trade =
        s.bars_in_trade + 1 := by
      rw [on_bar_bars_inpos, if_neg hnof]
    have hrec := ih ((on_bar p s oc.1 oc.2 true).1) (by
      rw [hbars]
      simp only [List.length_cons] at hlt
      omega)
    constructor
    · show (on_bar p s oc.1 oc.2 true).2 ::
        (inPosRun p ((on_bar p s oc.1 oc.2 true).1) l).2 = _
      rw [hsig, hrec.1]
      simp [List.replicate_succ]
    · show ((inPosRun p ((on_bar p s oc.1 oc.2 true).1) l).1).bars_in_trade = _
      rw [hrec.2, hbars]
      simp only [List.length_cons]
      omega

theorem inPosRun_fire_last (p : StrategyParams) :
    ∀ (l : List (List ℚ × List ℚ)) (s : LogicState), l ≠ [] →
      s.bars_in_trade + l.length = p.exit_bars →
      (inPosRun p s l).2 = List.replicate (l.length - 1) none ++ [some Signal.sell] ∧
      ((inPosRun p s l).1).bars_in_trade = 0 := by
  intro l
  induction l with
  | nil => exact fun s h => absurd rfl h
  | cons oc l ih =>
    intro s _ heq
    by_cases hl : l = []
    · subst hl
      simp only [List.length_cons, List.length_nil] at heq
      have hfire : p.exit_bars ≤ s.bars_in_trade + 1 := by omega
      have hsig : (on_bar p s oc.1 oc.2 true).2 = some Signal.sell := by
        rw [on_bar_snd_inpos, if_pos hfire]
      have hbars : ((on_bar p s oc.1 oc.2 true).1).bars_in_trade = 0 := by
        rw [on_bar_bars_inpos, if_pos hfire]
      exact ⟨by
        show (on_bar p s oc.1 oc.2 true).2 ::
          (inPosRun p ((on_bar p s oc.1 oc.2 true).1) []).2 = _
        rw [hsig]
        rfl, hbars⟩
    · have hlpos : 0 < l.length := List.length_pos.mpr hl
      have hnof : ¬ p.exit_bars ≤ s.bars_in_trade + 1 := by
        simp only [List.length_cons] at heq
        omega
      have hsig : (on_bar p s oc.1 oc.2 true).2 = none := by
        rw [on_bar_snd_inpos, if_neg hnof]
      have hbars : ((on_bar p s oc.1 oc.2 true).1).bars_in_trade =
          s.bars_in_trade + 1 := by
        rw [on_bar_bars_inpos, if_neg hnof]
      have hrec := ih ((on_bar p s oc.1 oc.2 true).1) hl (by
        rw [hbars]
        simp only [List.length_cons] at heq
        omega)
      constructor
      · show (on_bar p s oc.1 oc.2 true).2 ::
          (inPosRun p ((on_bar p s oc.1 oc.2 true).1) l).2 = _
        rw [hsig, hrec.1]
        have h1 : (oc :: l).length - 1 = (l.length - 1) + 1 := by
          simp only [List.length_cons]
          omega
        rw [h1, List.replicate_succ]
        simp
      · show ((inPosRun p ((on_bar p s oc.1 oc.2 true).1) l).1).bars_in_trade = _
        exact hrec.2


/-! ## Executor step lemmas -/

theorem execTick_last_close (p : StrategyParams) (fill : String → OrderExecution)
    (sym env : String) (s1 : ExecState) (c : Candle) :
    (execTick p fill sym env s1 c).1.last_close_time = s1.last_close_time := by
  simp only [execTick]
  split_ifs <;> rfl

theorem execTick_log_called (p : StrategyParams) (fill : String → OrderExecution)
    (sym env : String) (s1 : ExecState) (c : Candle) :
    (execTick p fill sym env s1 c).2.engineCalled = true := by
  simp only [execTick]

theorem execTick_decision (p : StrategyParams) (fill : String → OrderExecution)
    (sym env : String) (s1 : ExecState) (c : Candle) :
    (execTick p fill sym env s1 c).2.decision =
      (on_bar p s1.logic (s1.entry_tf_candles.map (fun x => x.open_))
        (s1.entry_tf_candles.map (fun x => x.close)) s1.in_position).2 := by
  simp only [execTick]

theorem execStep_of_fetch_none (p : StrategyParams) (fill : String → OrderExecution)
    (sym env : String) (s s1 : ExecState) (batch : List Candle)
    (h : fetchNewClosedCandle s batch = (s1, none)) :
    execStep p fill sym env s batch =
      (s1, { engineCalled := false, decision := none, appended := none }) := by
  unfold execStep
  rw [h]

theorem execStep_of_fetch_some (p : StrategyParams) (fill : String → OrderExecution)
    (sym env : String) (s s1 : ExecState) (batch : List Candle) (c : Candle)
    (h : fetchNewClosedCandle s batch = (s1, some c)) :
    execStep p fill sym env s batch = execTick p fill sym env s1 c := by
  unfold execStep
  rw [h]

theorem fetch_none_state (s : ExecState) (batch : List Candle) (s1 : ExecState)
    (h : fetchNewClosedCandle s batch = (s1, none)) : s1 = s := by
  unfold fetchNewClosedCandle at h
  cases hb : batch.getLast? with
  | none =>
    rw [hb] at h
    dsimp only at h
    exact (congrArg Prod.fst h).symm
  | some latest =>
    rw [hb] at h
    dsimp only at h
    split at h
    · exact (congrArg Prod.fst h).symm
    · exact absurd (congrArg Prod.snd h) (by simp)

theorem fetch_some_spec (s : ExecState) (batch : List Candle) (s1 : ExecState)
    (c : Candle) (h : fetchNewClosedCandle s batch = (s1, some c)) :
    batch.getLast? = some c ∧ s.last_close_time ≠ some c.close_time ∧
    s1 = { s with last_close_time := some c.close_time,
                  entry_tf_candles := batch } := by
  unfold fetchNewClosedCandle at h
  cases hb : batch.getLast? with
  | none =>
    rw [hb] at h
    dsimp only at h
    exact absurd (congrArg Prod.snd h) (by simp)
  | some latest =>
    rw [hb] at h
    dsimp only at h
    split at h
    · exact absurd (congrArg Prod.snd h) (by simp)
    · rename_i hne
      have hc : latest = c := Option.some.inj (congrArg Prod.snd h)
      subst hc
      exact ⟨rfl, hne, (congrArg Prod.fst h).symm⟩


theorem execTick_entry (p : StrategyParams) (fill : String → OrderExecution)
    (sym env : String) (s1 : ExecState) (c : Candle)
    (h1 : (on_bar p s1.logic (s1.entry_tf_candles.map (fun x => x.open_))
        (s1.entry_tf_candles.map (fun x => x.close)) s1.in_position).2 =
        some Signal.buy)
    (h2 : s1.in_position = false) :
    execTick p fill sym env s1 c =
      ({ s1 with
          logic := (on_bar p s1.logic (s1.entry_tf_candles.map (fun x => x.open_))
            (s1.entry_tf_candles.map (fun x => x.close)) s1.in_position).1
          in_position := true
          bars_in_trade := 1
          trade_counter := s1.trade_counter + 1
          current_trade := some
            { trade_id := formatTradeId (s1.trade_counter + 1)
              symbol := sym
              direction := "LONG"
              entry_time := c.close_time
              entry_price := (fill "BUY").price
              quantity := (fill "BUY").executed_qty }
          entry_bar_index := (on_bar p s1.logic
            (s1.entry_tf_candles.map (fun x => x.open_))
            (s1.entry_tf_candles.map (fun x => x.close)) s1.in_position).1.bar_index },
       { engineCalled := true, decision := some Signal.buy, appended := none }) := by
  simp only [execTick]
  simp only [h1]
  simp only [h2]
  simp

theorem execTick_exit (p : StrategyParams) (fill : String → OrderExecution)
    (sym env : String) (s1 : ExecState) (c : Candle)
    (h1 : (on_bar p s1.logic (s1.entry_tf_candles.map (fun x => x.open_))
        (s1.entry_tf_candles.map (fun x => x.close)) s1.in_position).2 =
        some Signal.sell)
    (h2 : s1.in_position = true) :
    execTick p fill sym env s1 c =
      ({ s1 with
          logic := (on_bar p s1.logic (s1.entry_tf_candles.map (fun x => x.open_))
            (s1.entry_tf_candles.map (fun x => x.close)) s1.in_position).1
          in_position := false
          bars_in_trade := 0
          trades := s1.trades ++
            [{ trade_id := (s1.current_trade.getD defaultEntryTrade).trade_id
               symbol := (s1.current_trade.getD defaultEntryTrade).symbol
               direction := (s1.current_trade.getD defaultEntryTrade).direction
               entry_time := (s1.current_trade.getD defaultEntryTrade).entry_time
               entry_price := (s1.current_trade.getD defaultEntryTrade).entry_price
               quantity := (s1.current_trade.getD defaultEntryTrade).quantity
               exit_time := c.close_time
               exit_price := (fill "SELL").price
               bars_held := s1.bars_in_trade
               environment := env }]
          current_trade := none },
       { engineCalled := true, decision := some Signal.sell,
         appended := some
           { trade_id := (s1.current_trade.getD defaultEntryTrade).trade_id
             symbol := (s1.current_trade.getD defaultEntryTrade).symbol
             direction := (s1.current_trade.getD defaultEntryTrade).direction
             entry_time := (s1.current_trade.getD defaultEntryTrade).entry_time
             entry_price := (s1.current_trade.getD defaultEntryTrade).entry_price
             quantity := (s1.current_trade.getD defaultEntryTrade).quantity
             exit_time := c.close_time
             exit_price := (fill "SELL").price
             bars_held := s1.bars_in_trade
             environment := env } }) := by
  simp only [execTick]
  simp only [h1]
  simp only [h2]
  simp

theorem execTick_noop (p : StrategyParams) (fill : String → OrderExecution)
    (sym env : String) (s1 : ExecState) (c : Candle)
    (h1 : (on_bar p s1.logic (s1.entry_tf_candles.map (fun x => x.open_))
        (s1.entry_tf_candles.map (fun x => x.close)) s1.in_position).2 = none) :
    execTick p fill sym env s1 c =
      (if s1.in_position then
        { s1 with
            logic := (on_bar p s1.logic (s1.entry_tf_candles.map (fun x => x.open_))
              (s1.entry_tf_candles.map (fun x => x.close)) s1.in_position).1
            bars_in_trade := s1.bars_in_trade + 1 }
       else
        { s1 with
            logic := (on_bar p s1.logic (s1.entry_tf_candles.map (fun x => x.open_))
              (s1.entry_tf_candles.map (fun x => x.close)) s1.in_position).1 },
       { engineCalled := true, decision := none, appended := none }) := by
  simp only [execTick]
  simp only [h1]
  simp only [reduceCtorEq, false_and, if_false]


/-! ## The lifecycle invariant is preserved -/

theorem execTick_preserves_inv (p : StrategyParams) (fill : String → OrderExecution)
    (sym env : String) (s1 : ExecState) (c : Candle) (hinv : ExecInv fill s1) :
    ExecInv fill (execTick p fill sym env s1 c).1 := by
  obtain ⟨hA, hB, hC⟩ := hinv
  cases hpos : s1.in_position with
  | false =>
    cases hdec : (on_bar p s1.logic (s1.entry_tf_candles.map (fun x => x.open_))
        (s1.entry_tf_candles.map (fun x => x.close)) s1.in_position).2 with
    | none =>
      obtain ⟨hb0, hct, htr⟩ := hA hpos
      rw [execTick_noop p fill sym env s1 c hdec]
      unfold ExecInv
      rw [hpos]
      simp only [Bool.false_eq_true, if_false]
      try dsimp only
      refine ⟨fun _ => ⟨?_, hct, htr⟩, fun hcontra => absurd hcontra (by simp), hC⟩
      rw [on_bar_bars_flat]
      exact hb0
    | some sig =>
      cases sig with
      | sell =>
        rw [hpos] at hdec
        exact absurd hdec (on_bar_flat_ne_sell p s1.logic _ _)
      | buy =>
        obtain ⟨hb0, hct, htr⟩ := hA hpos
        rw [execTick_entry p fill sym env s1 c hdec hpos]
        unfold ExecInv
        try dsimp only
        refine ⟨fun hcontra => absurd hcontra (by simp), fun _ => ?_, hC⟩
        refine ⟨_, rfl, rfl, rfl, by omega, by simpa using htr, by omega, le_refl _⟩
  | true =>
    cases hdec : (on_bar p s1.logic (s1.entry_tf_candles.map (fun x => x.open_))
        (s1.entry_tf_candles.map (fun x => x.close)) s1.in_position).2 with
    | none =>
      obtain ⟨et, hcur, hid, hep, htc1, htr, hbars, hle⟩ := hB hpos
      rw [execTick_noop p fill sym env s1 c hdec]
      unfold ExecInv
      rw [hpos]
      rw [if_pos rfl]
      try dsimp only
      refine ⟨fun hcontra => absurd hcontra (by simp), fun _ => ?_, hC⟩
      refine ⟨et, hcur, hid, hep, htc1, htr, ?_, ?_⟩
      · rw [on_bar_bar_index]
        omega
      · rw [on_bar_bar_index]
        omega
    | some sig =>
      cases sig with
      | buy =>
        rw [hpos] at hdec
        exact absurd hdec (on_bar_inpos_ne_buy p s1.logic _ _)
      | sell =>
        obtain ⟨et, hcur, hid, hep, htc1, htr, hbars, hle⟩ := hB hpos
        rw [execTick_exit p fill sym env s1 c hdec hpos]
        unfold ExecInv
        try dsimp only
        refine ⟨fun _ => ⟨?_, rfl, ?_⟩, fun hcontra => absurd hcontra (by simp), ?_⟩
        · exact on_bar_sell_bars p s1.logic _ _ s1.in_position hdec
        · rw [List.map_append, htr]
          have htc : s1.trade_counter - 1 + 1 = s1.trade_counter := by omega
          conv_rhs => rw [← htc]
          rw [List.range_succ, List.map_append]
          congr 1
          simp [hcur, hid, htc]
        · intro t ht
          rcases List.mem_append.mp ht with hmem | hmem
          · exact hC t hmem
          · rw [List.mem_singleton] at hmem
            subst hmem
            constructor
            · show (s1.current_trade.getD defaultEntryTrade).entry_price = _
              rw [hcur]
              exact hep
            · rfl

theorem execStep_preserves_inv (p : StrategyParams) (fill : String → OrderExecution)
    (sym env : String) (s : ExecState) (batch : List Candle) (hinv : ExecInv fill s) :
    ExecInv fill (execStep p fill sym env s batch).1 := by
  rcases hfetch : fetchNewClosedCandle s batch with ⟨s1, c?⟩
  cases c? with
  | none =>
    rw [execStep_of_fetch_none p fill sym env s s1 batch hfetch]
    have hs := fetch_none_state s batch s1 hfetch
    rw [show ((s1, ({ engineCalled := false, decision := none, appended := none } :
      StepLog))).1 = s1 from rfl, hs]
    exact hinv
  | some c =>
    rw [execStep_of_fetch_some p fill sym env s s1 batch c hfetch]
    obtain ⟨-, -, hs1⟩ := fetch_some_spec s batch s1 c hfetch
    apply execTick_preserves_inv
    rw [hs1]
    exact hinv

theorem reachable_inv (p : StrategyParams) (fill : String → OrderExecution)
    (sym env : String) :
    ∀ s : ExecState, Reachable p fill sym env s → ExecInv fill s := by
  intro s h
  induction h with
  | init =>
    exact ⟨fun _ => ⟨rfl, rfl, by simp [initExecState]⟩,
      fun hc => absurd hc (by simp [initExecState]),
      fun t ht => absurd ht (by simp [initExecState])⟩
  | step batch _ ih => exact execStep_preserves_inv p fill sym env _ batch ih

theorem execRun_reachable (p : StrategyParams) (fill : String → OrderExecution)
    (sym env : String) :
    ∀ (inputs : List (List Candle)) (s : ExecState), Reachable p fill sym env s →
      Reachable p fill sym env (execRun p fill sym env s inputs).1 := by
  intro inputs
  induction inputs with
  | nil => exact fun s h => h
  | cons b bs ih =>
    intro s h
    exact ih (execStep p fill sym env s b).1 (Reachable.step b h)


/-! ## Position transitions of the lifecycle loop -/

theorem execTick_pos_buy (p : StrategyParams) (fill : String → OrderExecution)
    (sym env : String) (s1 : ExecState) (c : Candle)
    (h : (execTick p fill sym env s1 c).2.decision = some Signal.buy) :
    s1.in_position = false ∧ (execTick p fill sym env s1 c).1.in_position = true := by
  rw [execTick_decision] at h
  cases hsp : s1.in_position with
  | true =>
    rw [hsp] at h
    exact absurd h (on_bar_inpos_ne_buy p s1.logic _ _)
  | false =>
    refine ⟨rfl, ?_⟩
    rw [execTick_entry p fill sym env s1 c h hsp]

theorem execTick_pos_sell (p : StrategyParams) (fill : String → OrderExecution)
    (sym env : String) (s1 : ExecState) (c : Candle)
    (h : (execTick p fill sym env s1 c).2.decision = some Signal.sell) :
    s1.in_position = true ∧ (execTick p fill sym env s1 c).1.in_position = false := by
  rw [execTick_decision] at h
  cases hsp : s1.in_position with
  | false =>
    rw [hsp] at h
    exact absurd h (on_bar_flat_ne_sell p s1.logic _ _)
  | true =>
    refine ⟨rfl, ?_⟩
    rw [execTick_exit p fill sym env s1 c h hsp]

theorem execTick_pos_none (p : StrategyParams) (fill : String → OrderExecution)
    (sym env : String) (s1 : ExecState) (c : Candle)
    (h : (execTick p fill sym env s1 c).2.decision = none) :
    (execTick p fill sym env s1 c).1.in_position = s1.in_position := by
  rw [execTick_decision] at h
  rw [execTick_noop p fill sym env s1 c h]
  split <;> rfl

theorem execStep_not_called (p : StrategyParams) (fill : String → OrderExecution)
    (sym env : String) (s : ExecState) (batch : List Candle)
    (h : (execStep p fill sym env s batch).2.engineCalled = false) :
    execStep p fill sym env s batch =
      (s, { engineCalled := false, decision := none, appended := none }) := by
  rcases hfetch : fetchNewClosedCandle s batch with ⟨s1, c?⟩
  cases c? with
  | none =>
    rw [execStep_of_fetch_none p fill sym env s s1 batch hfetch,
      fetch_none_state s batch s1 hfetch]
  | some c =>
    rw [execStep_of_fetch_some p fill sym env s s1 batch c hfetch,
      execTick_log_called] at h
    exact absurd h (by simp)

theorem execStep_called_decision (p : StrategyParams) (fill : String → OrderExecution)
    (sym env : String) (s : ExecState) (batch : List Candle)
    (h : (execStep p fill sym env s batch).2.engineCalled = true) :
    ∃ opens closes, (execStep p fill sym env s batch).2.decision =
      (on_bar p s.logic opens closes s.in_position).2 := by
  rcases hfetch : fetchNewClosedCandle s batch with ⟨s1, c?⟩
  cases c? with
  | none =>
    rw [execStep_of_fetch_none p fill sym env s s1 batch hfetch] at h
    exact absurd h (by simp)
  | some c =>
    rw [execStep_of_fetch_some p fill sym env s s1 batch c hfetch]
    obtain ⟨-, -, hs1⟩ := fetch_some_spec s batch s1 c hfetch
    refine ⟨batch.map (fun x => x.open_), batch.map (fun x => x.close), ?_⟩
    rw [execTick_decision, hs1]

theorem execStep_pos_buy (p : StrategyParams) (fill : String → OrderExecution)
    (sym env : String) (s : ExecState) (batch : List Candle)
    (h : (execStep p fill sym env s batch).2.decision = some Signal.buy)
    (hc : (execStep p fill sym env s batch).2.engineCalled = true) :
    s.in_position = false ∧ (execStep p fill sym env s batch).1.in_position = true := by
  rcases hfetch : fetchNewClosedCandle s batch with ⟨s1, c?⟩
  cases c? with
  | none =>
    rw [execStep_of_fetch_none p fill sym env s s1 batch hfetch] at hc
    exact absurd hc (by simp)
  | some c =>
    rw [execStep_of_fetch_some p fill sym env s s1 batch c hfetch] at h ⊢
    obtain ⟨-, -, hs1⟩ := fetch_some_spec s batch s1 c hfetch
    obtain ⟨h1, h2⟩ := execTick_pos_buy p fill sym env s1 c h
    rw [hs1] at h1
    exact ⟨h1, h2⟩

theorem execStep_pos_none (p : StrategyParams) (fill : String → OrderExecution)
    (sym env : String) (s : ExecState) (batch : List Candle)
    (h : (execStep p fill sym env s batch).2.decision = none) :
    (execStep p fill sym env s batch).1.in_position = s.in_position := by
  rcases hfetch : fetchNewClosedCandle s batch with ⟨s1, c?⟩
  cases c? with
  | none =>
    rw [execStep_of_fetch_none p fill sym env s s1 batch hfetch,
      fetch_none_state s batch s1 hfetch]
  | some c =>
    rw [execStep_of_fetch_some p fill sym env s s1 batch c hfetch] at h ⊢
    obtain ⟨-, -, hs1⟩ := fetch_some_spec s batch s1 c hfetch
    rw [execTick_pos_none p fill sym env s1 c h, hs1]

/-! ## Decision trace lemmas -/

theorem open_no_buy_before_sell (p : StrategyParams) (fill : String → OrderExecution)
    (sym env : String) :
    ∀ (bs : List (List Candle)) (s : ExecState) (l2 l3 : List (Option Signal)),
      s.in_position = true →
      decisionTrace p fill sym env s bs = l2 ++ some Signal.buy :: l3 →
      (∀ d ∈ l2, d ≠ some Signal.sell) → False := by
  intro bs
  induction bs with
  | nil =>
    intro s l2 l3 _ htr _
    rw [decisionTrace] at htr
    exact absurd htr.symm (by simp)
  | cons b bs ih =>
    intro s l2 l3 hpos htr hns
    simp only [decisionTrace] at htr
    cases hc : (execStep p fill sym env s b).2.engineCalled with
    | false =>
      rw [hc] at htr
      simp only [Bool.false_eq_true, if_false] at htr
      have hstep := execStep_not_called p fill sym env s b hc
      rw [hstep] at htr
      exact ih s l2 l3 hpos htr hns
    | true =>
      rw [hc] at htr
      simp only [if_true] at htr
      obtain ⟨o, cl, hshape⟩ := execStep_called_decision p fill sym env s b hc
      have hdnb : (execStep p fill sym env s b).2.decision ≠ some Signal.buy := by
        rw [hshape, hpos]
        exact on_bar_inpos_ne_buy p s.logic _ _
      cases l2 with
      | nil =>
        rw [List.nil_append] at htr
        injection htr with hd0 hrest
        exact absurd hd0 hdnb
      | cons d l2' =>
        rw [List.cons_append] at htr
        injection htr with hd0 hrest
        have hdns : d ≠ some Signal.sell := hns d (List.mem_cons_self d l2')
        cases hd : (execStep p fill sym env s b).2.decision with
        | none =>
          refine ih _ l2' l3 ?_ hrest (fun x hx => hns x (List.mem_cons_of_mem d hx))
          rw [execStep_pos_none p fill sym env s b hd]
          exact hpos
        | some sig =>
          cases sig with
          | buy => exact absurd hd hdnb
          | sell =>
            rw [hd] at hd0
            exact absurd hd0.symm hdns

theorem trace_sell_between_buys (p : StrategyParams) (fill : String → OrderExecution)
    (sym env : String) :
    ∀ (bs : List (List Candle)) (s : ExecState) (l1 l2 l3 : List (Option Signal)),
      decisionTrace p fill sym env s bs =
        l1 ++ some Signal.buy :: (l2 ++ some Signal.buy :: l3) →
      (∀ d ∈ l2, d ≠ some Signal.sell) → False := by
  intro bs
  induction bs with
  | nil =>
    intro s l1 l2 l3 htr _
    rw [decisionTrace] at htr
    exact absurd htr.symm (by simp)
  | cons b bs ih =>
    intro s l1 l2 l3 htr hns
    simp only [decisionTrace] at htr
    cases hc : (execStep p fill sym env s b).2.engineCalled with
    | false =>
      rw [hc] at htr
      simp only [Bool.false_eq_true, if_false] at htr
      have hstep := execStep_not_called p fill sym env s b hc
      rw [hstep] at htr
      exact ih s l1 l2 l3 htr hns
    | true =>
      rw [hc] at htr
      simp only [if_true] at htr
      cases l1 with
      | nil =>
        rw [List.nil_append] at htr
        injection htr with hd0 hrest
        obtain ⟨-, hopen⟩ := execStep_pos_buy p fill sym env s b hd0 hc
        exact open_no_buy_before_sell p fill sym env bs _ l2 l3 hopen hrest hns
      | cons d l1' =>
        rw [List.cons_append] at htr
        injection htr with hd0 hrest
        exact ih _ l1' l2 l3 hrest hns


/-! ## Concrete run, tick by tick -/

theorem exStep1 : execStep exParams (dryFill "BTCUSDT" (2 / 100)) "BTCUSDT"
    "DRY_RUN" initExecState exBatch1 =
    (exState1, { engineCalled := true, decision := some Signal.buy,
                 appended := none }) := by
  have hfetch : fetchNewClosedCandle initExecState exBatch1 =
      (exPre1, some (exCandle 2 1 2)) := rfl
  rw [execStep_of_fetch_some exParams (dryFill "BTCUSDT" (2 / 100)) "BTCUSDT"
    "DRY_RUN" initExecState exPre1 exBatch1 (exCandle 2 1 2) hfetch]
  have hdec : (on_bar exParams exPre1.logic
      (exPre1.entry_tf_candles.map (fun x => x.open_))
      (exPre1.entry_tf_candles.map (fun x => x.close))
      exPre1.in_position).2 = some Signal.buy := by
    norm_num [on_bar, stepTrend, updateConfirmTrend, trendFlagOf, entryEval, ema,
      rsi, takeLast, npDiff, listMean, exPre1, initExecState, initLogicState,
      exParams, exBatch1, exCandle, List.getLastD]
    simp
  rw [execTick_entry exParams (dryFill "BTCUSDT" (2 / 100)) "BTCUSDT" "DRY_RUN"
    exPre1 (exCandle 2 1 2) hdec rfl]
  norm_num [on_bar, stepTrend, updateConfirmTrend, trendFlagOf, entryEval,
    exPre1, initExecState, initLogicState, exParams, exBatch1, exCandle,
    exState1, dryFill, List.getLastD]
  simp

theorem exStep2 : execStep exParams (dryFill "BTCUSDT" (2 / 100)) "BTCUSDT"
    "DRY_RUN" exState1 exBatch2 =
    (exState2, { engineCalled := true, decision := some Signal.sell,
                 appended := some exTrade }) := by
  have hfetch : fetchNewClosedCandle exState1 exBatch2 =
      (exPre2, some (exCandle 3 1 2)) := rfl
  rw [execStep_of_fetch_some exParams (dryFill "BTCUSDT" (2 / 100)) "BTCUSDT"
    "DRY_RUN" exState1 exPre2 exBatch2 (exCandle 3 1 2) hfetch]
  have hdec : (on_bar exParams exPre2.logic
      (exPre2.entry_tf_candles.map (fun x => x.open_))
      (exPre2.entry_tf_candles.map (fun x => x.close))
      exPre2.in_position).2 = some Signal.sell := by
    norm_num [on_bar, stepTrend, updateConfirmTrend, trendFlagOf, entryEval, ema,
      rsi, takeLast, npDiff, listMean, exPre2, exState1, exParams, exBatch2,
      exCandle, List.getLastD]
  rw [execTick_exit exParams (dryFill "BTCUSDT" (2 / 100)) "BTCUSDT" "DRY_RUN"
    exPre2 (exCandle 3 1 2) hdec rfl]
  norm_num [on_bar, stepTrend, updateConfirmTrend, trendFlagOf, entryEval,
    exPre2, exState1, exState2, exTrade, exParams, exBatch2, exCandle,
    defaultEntryTrade, dryFill, List.getLastD]

theorem exStep3 : execStep exParams (dryFill "BTCUSDT" (2 / 100)) "BTCUSDT"
    "DRY_RUN" exState2 exBatch3 =
    (exState3, { engineCalled := true, decision := some Signal.buy,
                 appended := none }) := by
  have hfetch : fetchNewClosedCandle exState2 exBatch3 =
      (exPre3, some (exCandle 4 1 3)) := rfl
  rw [execStep_of_fetch_some exParams (dryFill "BTCUSDT" (2 / 100)) "BTCUSDT"
    "DRY_RUN" exState2 exPre3 exBatch3 (exCandle 4 1 3) hfetch]
  have hdec : (on_bar exParams exPre3.logic
      (exPre3.entry_tf_candles.map (fun x => x.open_))
      (exPre3.entry_tf_candles.map (fun x => x.close))
      exPre3.in_position).2 = some Signal.buy := by
    norm_num [on_bar, stepTrend, updateConfirmTrend, trendFlagOf, entryEval, ema,
      rsi, takeLast, npDiff, listMean, exPre3, exState2, exParams, exBatch3,
      exCandle, List.getLastD]
    simp
  rw [execTick_entry exParams (dryFill "BTCUSDT" (2 / 100)) "BTCUSDT" "DRY_RUN"
    exPre3 (exCandle 4 1 3) hdec rfl]
  norm_num [on_bar, stepTrend, updateConfirmTrend, trendFlagOf, entryEval,
    exPre3, exState2, exState3, exTrade, exParams, exBatch3, exCandle,
    dryFill, List.getLastD]
  simp

theorem exTrace : decisionTrace exParams (dryFill "BTCUSDT" (2 / 100)) "BTCUSDT"
    "DRY_RUN" initExecState [exBatch1, exBatch2, exBatch3] =
    [some Signal.buy, some Signal.sell, some Signal.buy] := by
  simp only [decisionTrace, exStep1, exStep2, exStep3]
  simp

theorem exRun2 : (execRun exParams (dryFill "BTCUSDT" (2 / 100)) "BTCUSDT"
    "DRY_RUN" initExecState [exBatch1, exBatch2]).1 = exState2 := by
  simp only [execRun, exStep1, exStep2]


/-! ## Claim C2: exit-by-time fires exactly at exitBars -/

/-- C2. From an engine state with `bars_in_trade = 0` (as after a
fresh entry) and `exitBars ≥ 1`, a run of in-position calls — with
arbitrary price arrays at each call — returns no-action on every call
before the `exitBars`-th one, and on exactly the `exitBars`-th call
returns exit-long and resets `bars_in_trade` to 0; moreover, on the
coupled lifecycle machine the engine's `bars_in_trade` is 0 in every
reachable flat state, so a fresh entry indeed starts the countdown at 0. -/
theorem claimC2_exit_by_time (p : StrategyParams) (s : LogicState)
    (l : List (List ℚ × List ℚ)) (h0 : s.bars_in_trade = 0)
    (h1 : 1 ≤ p.exit_bars) :
    ((l.length < p.exit_bars →
        (inPosRun p s l).2 = List.replicate l.length none ∧
        ((inPosRun p s l).1).bars_in_trade = l.length) ∧
     (l.length = p.exit_bars →
        (inPosRun p s l).2 =
          List.replicate (l.length - 1) none ++ [some Signal.sell] ∧
        ((inPosRun p s l).1).bars_in_trade = 0)) ∧
    (∀ (fill : String → OrderExecution) (sym env : String) (es : ExecState),
        Reachable p fill sym env es → es.in_position = false →
        es.logic.bars_in_trade = 0) := by
  refine ⟨⟨?_, ?_⟩, ?_⟩
  · intro hlt
    have h := inPosRun_no_fire p l s (by omega)
    rw [h0, Nat.zero_add] at h
    exact h
  · intro heq
    have hne : l ≠ [] := by
      intro hc
      rw [hc] at heq
      simp at heq
      omega
    exact inPosRun_fire_last p l s hne (by omega)
  · intro fill sym env es hr hflat
    exact ((reachable_inv p fill sym env es hr).1 hflat).1

/-- C2 witness. With `exitBars = 2` and two in-position calls, the
first call is no-action and the second fires exit-long, resetting the
counter to 0; and the initial executor state is flat with counter 0. -/
theorem claimC2_witness :
    ((inPosRun ⟨1, 1, 0, 1, 1, 2, 100⟩ initLogicState
        [([1], [1]), ([2], [2])]).2 =
      List.replicate 1 none ++ [some Signal.sell] ∧
     ((inPosRun ⟨1, 1, 0, 1, 1, 2, 100⟩ initLogicState
        [([1], [1]), ([2], [2])]).1).bars_in_trade = 0) ∧
    initExecState.logic.bars_in_trade = 0 :=
  ⟨(claimC2_exit_by_time ⟨1, 1, 0, 1, 1, 2, 100⟩ initLogicState
      [([1], [1]), ([2], [2])] rfl (by norm_num)).1.2 rfl,
   (claimC2_exit_by_time ⟨1, 1, 0, 1, 1, 2, 100⟩ initLogicState [] rfl
      (by norm_num)).2 (dryFill "BTCUSDT" 1) "BTCUSDT" "DRY_RUN" initExecState
      Reachable.init rfl⟩

/-! ## Claim C3: intent/position consistency and FLAT/OPEN alternation -/

/-- C3. The engine never returns enter-long when called with
`positionOpen = true` and never exit-long when called with
`positionOpen = false`; and in every run of the coupled
engine-plus-lifecycle machine from startup, between any two enter-long
decisions there is an intervening exit-long decision. -/
theorem claimC3_alternation :
    (∀ (p : StrategyParams) (s : LogicState) (opens closes : List ℚ),
       (on_bar p s opens closes true).2 ≠ some Signal.buy ∧
       (on_bar p s opens closes false).2 ≠ some Signal.sell) ∧
    (∀ (p : StrategyParams) (fill : String → OrderExecution) (sym env : String)
       (inputs : List (List Candle)) (l1 l2 l3 : List (Option Signal)),
       decisionTrace p fill sym env initExecState inputs =
         l1 ++ some Signal.buy :: (l2 ++ some Signal.buy :: l3) →
       ∃ d ∈ l2, d = some Signal.sell) := by
  constructor
  · intro p s opens closes
    exact ⟨on_bar_inpos_ne_buy p s opens closes, on_bar_flat_ne_sell p s opens closes⟩
  · intro p fill sym env inputs l1 l2 l3 htr
    by_contra hno
    push_neg at hno
    exact trace_sell_between_buys p fill sym env inputs initExecState l1 l2 l3
      htr hno

/-- C3 witness. The concrete three-tick run decides BUY, SELL, BUY;
the theorem locates an exit-long strictly between the two enter-longs. -/
theorem claimC3_witness : ∃ d ∈ [some Signal.sell], d = some Signal.sell :=
  claimC3_alternation.2 exParams (dryFill "BTCUSDT" (2 / 100)) "BTCUSDT"
    "DRY_RUN" [exBatch1, exBatch2, exBatch3] [] [some Signal.sell] []
    (by rw [exTrace]; rfl)

/-! ## Claim C4: watermark deduplication -/

/-- C4. If the fetched batch's latest candle has the same close_time
as the stored watermark, the tick is a no-op: the Decision Engine is not
invoked and the state is unchanged.  If instead the engine was invoked
(the batch was accepted) and the feed did not go back in time
(`w ≤ latest.close_time`), then the watermark strictly advances to the
latest close_time — so close_times of accepted candles strictly increase
and the engine runs at most once per distinct closed bar. -/
theorem claimC4_watermark (p : StrategyParams) (fill : String → OrderExecution)
    (sym env : String) (s : ExecState) (batch : List Candle) (latest : Candle)
    (hl : batch.getLast? = some latest) :
    (s.last_close_time = some latest.close_time →
       execStep p fill sym env s batch =
         (s, { engineCalled := false, decision := none, appended := none })) ∧
    (∀ w : Int, s.last_close_time = some w → w ≤ latest.close_time →
       (execStep p fill sym env s batch).2.engineCalled = true →
       w < latest.close_time ∧
       (execStep p fill sym env s batch).1.last_close_time =
         some latest.close_time) := by
  constructor
  · intro hdup
    have hfetch : fetchNewClosedCandle s batch = (s, none) := by
      unfold fetchNewClosedCandle
      rw [hl]
      dsimp only
      rw [if_pos hdup]
    rw [execStep_of_fetch_none p fill sym env s s batch hfetch]
  · intro w hw hle hcalled
    rcases hfetch : fetchNewClosedCandle s batch with ⟨s1, c?⟩
    cases c? with
    | none =>
      rw [execStep_of_fetch_none p fill sym env s s1 batch hfetch] at hcalled
      exact absurd hcalled (by simp)
    | some c =>
      obtain ⟨hlast, hne, hs1⟩ := fetch_some_spec s batch s1 c hfetch
      rw [hl] at hlast
      obtain rfl : latest = c := Option.some.inj hlast
      have hwne : w ≠ latest.close_time := by
        intro hcc
        apply hne
        rw [hw, hcc]
      refine ⟨lt_of_le_of_ne hle hwne, ?_⟩
      rw [execStep_of_fetch_some p fill sym env s s1 batch latest hfetch,
        execTick_last_close, hs1]

/-- C4 witness. With the watermark at close_time 2, refeeding a batch
ending at close_time 2 is a no-op; the accepted batch ending at
close_time 3 strictly advances the watermark to 3 and the engine runs. -/
theorem claimC4_witness :
    (execStep exParams (dryFill "BTCUSDT" (2 / 100)) "BTCUSDT" "DRY_RUN"
        exState1 [exCandle 2 1 2] =
      (exState1, { engineCalled := false, decision := none, appended := none })) ∧
    ((2 : Int) < 3 ∧
     (execStep exParams (dryFill "BTCUSDT" (2 / 100)) "BTCUSDT" "DRY_RUN"
        exState1 exBatch2).1.last_close_time = some 3) :=
  ⟨(claimC4_watermark exParams (dryFill "BTCUSDT" (2 / 100)) "BTCUSDT" "DRY_RUN"
      exState1 [exCandle 2 1 2] (exCandle 2 1 2) rfl).1 rfl,
   (claimC4_watermark exParams (dryFill "BTCUSDT" (2 / 100)) "BTCUSDT" "DRY_RUN"
      exState1 exBatch2 (exCandle 3 1 2) rfl).2 2 rfl (by norm_num [exCandle])
      (by rw [exStep2])⟩


theorem getLast_append_singleton {α : Type} (l : List α) (a : α) :
    (l ++ [a]).getLast? = some a :=
  List.getLast?_concat l

/-! ## Claim C7: completed trades are fully populated before the append -/

/-- C7. Whenever a tick of the lifecycle loop from a reachable state
appends a trade, the appended record carries the exit fields of that very
tick — exit_time is the accepted candle's close_time, exit_price the sell
fill price, environment the configured label — the journal write on the
grown trade list emits exactly that completed record, and its
`bars_held` equals the number of accepted bars between the trade's entry
bar and this exit bar. -/
theorem claimC7_trade_completion (p : StrategyParams)
    (fill : String → OrderExecution) (sym env : String) (s : ExecState)
    (batch : List Candle) (t : Trade) (hr : Reachable p fill sym env s)
    (ha : (execStep p fill sym env s batch).2.appended = some t) :
    (∃ latest, batch.getLast? = some latest ∧
       t.exit_time = latest.close_time) ∧
    t.exit_price = (fill "SELL").price ∧
    t.environment = env ∧
    (execStep p fill sym env s batch).1.trades = s.trades ++ [t] ∧
    t.bars_held =
      (execStep p fill sym env s batch).1.logic.bar_index -
        s.entry_bar_index ∧
    s.entry_bar_index < (execStep p fill sym env s batch).1.logic.bar_index ∧
    write_trades_to_csv ((execStep p fill sym env s batch).1.trades)
      (Except.ok ()) = Except.ok (some (csvRow t)) := by
  rcases hfetch : fetchNewClosedCandle s batch with ⟨s1, c?⟩
  cases c? with
  | none =>
    rw [execStep_of_fetch_none p fill sym env s s1 batch hfetch] at ha
    exact absurd ha (by simp)
  | some c =>
    obtain ⟨hlast, -, hs1⟩ := fetch_some_spec s batch s1 c hfetch
    rw [execStep_of_fetch_some p fill sym env s s1 batch c hfetch] at ha ⊢
    cases hpos : s1.in_position with
    | false =>
      cases hdec : (on_bar p s1.logic (s1.entry_tf_candles.map (fun x => x.open_))
          (s1.entry_tf_candles.map (fun x => x.close)) s1.in_position).2 with
      | none =>
        rw [execTick_noop p fill sym env s1 c hdec] at ha
        exact absurd ha (by simp)
      | some sig =>
        cases sig with
        | sell =>
          rw [hpos] at hdec
          exact absurd hdec (on_bar_flat_ne_sell p s1.logic _ _)
        | buy =>
          rw [execTick_entry p fill sym env s1 c hdec hpos] at ha
          exact absurd ha (by simp)
    | true =>
      cases hdec : (on_bar p s1.logic (s1.entry_tf_candles.map (fun x => x.open_))
          (s1.entry_tf_candles.map (fun x => x.close)) s1.in_position).2 with
      | none =>
        rw [execTick_noop p fill sym env s1 c hdec] at ha
        exact absurd ha (by simp)
      | some sig =>
        cases sig with
        | buy =>
          rw [hpos] at hdec
          exact absurd hdec (on_bar_inpos_ne_buy p s1.logic _ _)
        | sell =>
          have hposS : s.in_position = true := by
            rw [hs1] at hpos
            exact hpos
          obtain ⟨et, hcur, hid, hep, htc1, htr, hbars, hle⟩ :=
            (reachable_inv p fill sym env s hr).2.1 hposS
          rw [execTick_exit p fill sym env s1 c hdec hpos] at ha ⊢
          dsimp only at ha
          obtain rfl := (Option.some.inj ha).symm
          subst hs1
          dsimp only at hdec ⊢
          refine ⟨⟨c, hlast, rfl⟩, rfl, rfl, rfl, ?_, ?_, ?_⟩
          · dsimp only
            rw [on_bar_bar_index]
            omega
          · rw [on_bar_bar_index]
            omega
          · rw [write_trades_to_csv, getLast_append_singleton]

/-- C7 witness. The concrete exit tick on `exBatch2` appends
`exTrade`: exit_time 3 (the accepted candle), exit price the dry-run fill
price, environment DRY_RUN, bars_held 1 = bar 2 − bar 1. -/
theorem claimC7_witness :
    (∃ latest, exBatch2.getLast? = some latest ∧
       exTrade.exit_time = latest.close_time) ∧
    exTrade.exit_price = (dryFill "BTCUSDT" (2 / 100) "SELL").price ∧
    exTrade.environment = "DRY_RUN" ∧
    (execStep exParams (dryFill "BTCUSDT" (2 / 100)) "BTCUSDT" "DRY_RUN"
      exState1 exBatch2).1.trades = exState1.trades ++ [exTrade] ∧
    exTrade.bars_held =
      (execStep exParams (dryFill "BTCUSDT" (2 / 100)) "BTCUSDT" "DRY_RUN"
        exState1 exBatch2).1.logic.bar_index - exState1.entry_bar_index ∧
    exState1.entry_bar_index <
      (execStep exParams (dryFill "BTCUSDT" (2 / 100)) "BTCUSDT" "DRY_RUN"
        exState1 exBatch2).1.logic.bar_index ∧
    write_trades_to_csv ((execStep exParams (dryFill "BTCUSDT" (2 / 100))
      "BTCUSDT" "DRY_RUN" exState1 exBatch2).1.trades) (Except.ok ()) =
      Except.ok (some (csvRow exTrade)) := by
  have h1 : Reachable exParams (dryFill "BTCUSDT" (2 / 100)) "BTCUSDT" "DRY_RUN"
      exState1 := by
    have h := @Reachable.step exParams (dryFill "BTCUSDT" (2 / 100)) "BTCUSDT"
      "DRY_RUN" initExecState exBatch1 Reachable.init
    rwa [exStep1] at h
  exact claimC7_trade_completion exParams (dryFill "BTCUSDT" (2 / 100)) "BTCUSDT"
    "DRY_RUN" exState1 exBatch2 exTrade h1 (by rw [exStep2])

/-! ## Claim C8: persisted record fields and trade-id sequence -/

/-- C8 counterexample. The journal row written for a completed trade
does not contain a `quantity` column: `CSV_FIELDS` (and hence the
persisted record) omits the in-memory `quantity` field, refuting the
claim that every field of the data model, quantity included, is
persisted. -/
theorem claimC8_counterexample :
    write_trades_to_csv [exTrade] (Except.ok ()) =
      Except.ok (some (csvRow exTrade)) ∧
    "quantity" ∉ (csvRow exTrade).map Prod.fst := by
  constructor
  · rfl
  · simp [csvRow]

/-- C8 (amended). Every persisted journal row carries a value for
exactly the nine `CSV_FIELDS` — trade_id, symbol, direction, entry_time,
entry_price, exit_time, exit_price, bars_held, environment; the
`quantity` field of the in-memory record is not persisted.  Across every
run from startup, the journal's trade_ids form the deterministic
monotonically increasing sequence `T001, T002, …` (`formatTradeId` of
successive counters). -/
theorem claimC8_persisted_fields :
    (∀ t : Trade, (csvRow t).map Prod.fst = CSV_FIELDS) ∧
    (∀ (p : StrategyParams) (fill : String → OrderExecution) (sym env : String)
       (inputs : List (List Candle)), ∃ k,
       ((execRun p fill sym env initExecState inputs).1).trades.map
           (fun t => t.trade_id) =
         (List.range k).map (fun i => formatTradeId (i + 1))) := by
  constructor
  · intro t
    rfl
  · intro p fill sym env inputs
    have hinv := reachable_inv p fill sym env _
      (execRun_reachable p fill sym env inputs initExecState Reachable.init)
    cases hpos : ((execRun p fill sym env initExecState inputs).1).in_position with
    | false => exact ⟨_, (hinv.1 hpos).2.2⟩
    | true =>
      obtain ⟨et, -, -, -, -, htrades, -, -⟩ := hinv.2.1 hpos
      exact ⟨_, htrades⟩

/-! ## Claim C9: the journal append never raises -/

/-- C9. `write_trades_to_csv` always returns normally (an `ok`
result), for every trade list and every storage outcome — including a
failing storage write, which is swallowed after logging; journal
persistence can never abort the trading loop. -/
theorem claimC9_journal_never_raises (trades : List Trade)
    (storage : Except String Unit) :
    ∃ r, write_trades_to_csv trades storage = Except.ok r := by
  unfold write_trades_to_csv
  cases trades.getLast? with
  | none => exact ⟨none, rfl⟩
  | some t =>
    cases storage with
    | error e => exact ⟨none, rfl⟩
    | ok u => exact ⟨some (csvRow t), rfl⟩

/-! ## Claim C10: DRY_RUN orders and trade record prices -/

/-- C10. In DRY_RUN mode, `place_market_order` for a valid side makes
no exchange call and returns a simulated fill with the requested
quantity, `price = None` and `timestamp = None`; consequently every trade
record completed over any DRY_RUN run has `entry_price = None` and
`exit_price = None`. -/
theorem claimC10_dry_run (sym : String) :
    (∀ (side : String) (qty : ℚ) (resp : Except String OrderResponse),
       (side = "BUY" ∨ side = "SELL") →
       place_market_order true sym side qty resp =
         Except.ok (dryFill sym qty side, false)) ∧
    (∀ (p : StrategyParams) (qty : ℚ) (env : String)
       (inputs : List (List Candle)) (t : Trade),
       t ∈ ((execRun p (dryFill sym qty) sym env initExecState inputs).1).trades →
       t.entry_price = none ∧ t.exit_price = none) := by
  constructor
  · intro side qty resp hside
    unfold place_market_order
    rcases hside with rfl | rfl
    · rw [if_neg (by simp), if_pos rfl]
      rfl
    · rw [if_neg (by simp), if_pos rfl]
      rfl
  · intro p qty env inputs t ht
    have hinv := reachable_inv p (dryFill sym qty) sym env _
      (execRun_reachable p (dryFill sym qty) sym env inputs initExecState
        Reachable.init)
    have h := hinv.2.2 t ht
    exact ⟨h.1.trans rfl, h.2.trans rfl⟩

/-- C10 witness. A DRY_RUN BUY of 0.02 ignores the (failing) network
oracle and returns the simulated fill with `price = none`; `exTrade`, the
trade completed in the concrete DRY_RUN run over `exBatch1`/`exBatch2`,
has `entry_price = none` and `exit_price = none`. -/
theorem claimC10_witness :
    place_market_order true "BTCUSDT" "BUY" (2 / 100) (Except.error "boom") =
      Except.ok (dryFill "BTCUSDT" (2 / 100) "BUY", false) ∧
    exTrade.entry_price = none ∧ exTrade.exit_price = none := by
  refine ⟨(claimC10_dry_run "BTCUSDT").1 "BUY" (2 / 100) (Except.error "boom")
    (Or.inl rfl), ?_⟩
  have hmem : exTrade ∈ ((execRun exParams (dryFill "BTCUSDT" (2 / 100))
      "BTCUSDT" "DRY_RUN" initExecState [exBatch1, exBatch2]).1).trades := by
    rw [exRun2]
    simp [exState2]
  exact (claimC10_dry_run "BTCUSDT").2 exParams (2 / 100) "DRY_RUN"
    [exBatch1, exBatch2] exTrade hmem

end MultiTF
